import Mathlib

/-!
# Verification of the task-manager core (`src/task_manager.py`)

Shallow embedding of the task store and its operations.

Modelling conventions:
* `datetime` values are modelled as natural numbers with the order of the
  calendar: a parsed due date `MM/DD/YYYY` is encoded as
  `(y-1)*10000 + (m-1)*100 + (d-1)`, an order-preserving encoding of the
  lexicographic order on `(year, month, day)` (all parsed dates carry a zero
  time component, so this is also the `datetime` order on them).
  `datetime.min` (= `datetime(1,1,1)`, reachable as the parsed date
  `01/01/0001`) is encoded as `0`; `datetime.max` carries the time component
  `23:59:59.999999` and is strictly above every parseable date, so it is
  modelled as the `none`-is-top order `ltDueMax` on `Option Nat`.
* The persisted pickle file is modelled as `stored : Option (List Task)`:
  `pickle.dump` stores the task list wholesale and `pickle.load` returns it;
  the byte-level codec is an external library, modelled as faithful storage
  (the spec only requires a self-describing round-tripping serialization).
* Python strings are `List Char`; `str.lower` is modelled by `Char.toLower`
  and `in` (substring) by `containsSub`.
* `datetime.now()` is passed in explicitly as a `now : Nat` argument.
* Python's `sorted` is a stable sort; `List.insertionSort` with a total
  transitive relation is the stable sort for that relation, so
  `sorted(l, key=k)` is embedded as `insertionSort (relation of k) l` and
  `sorted(l, key=k, reverse=True)` as `insertionSort` with the reversed
  relation (stability under `reverse=True` also keeps equal keys in
  original order, as Python does).
-/

namespace TaskM

/-- `class Task`: a task record.  `created`/`completed` are timestamps
(`datetime.now()` values passed in as `Nat`), `due_date` is an optional
encoded calendar date. -/
structure Task where
  created : Nat
  completed : Option Nat
  deleted : Bool
  name : List Char
  unique_id : Nat
  priority : Int
  due_date : Option Nat
  deriving DecidableEq

/-- `Task.__init__(unique_id, name, priority=1, due_date=None)` at time `now`. -/
def Task.init (unique_id : Nat) (name : List Char) (priority : Int)
    (due_date : Option Nat) (now : Nat) : Task :=
  { created := now, completed := none, deleted := false, name := name,
    unique_id := unique_id, priority := priority, due_date := due_date }

/-- `Task.mark_completed`: sets `completed` to the current time. -/
def Task.mark_completed (t : Task) (now : Nat) : Task :=
  { t with completed := some now }

/-- `Task.mark_deleted`: sets the `deleted` flag. -/
def Task.mark_deleted (t : Task) : Task :=
  { t with deleted := true }

/-- `class Tasks`: the in-memory task list together with the content of the
backing pickle file (`none` when the file does not exist). -/
structure Tasks where
  tasks : List Task
  stored : Option (List Task)
  deriving DecidableEq

/-- `Tasks.pickle_tasks`: write the whole task list to the file. -/
def Tasks.pickle_tasks (s : Tasks) : Tasks :=
  { s with stored := some s.tasks }

/-- `Tasks.load_tasks`: read the task list from the file if it exists,
otherwise the empty list. -/
def Tasks.load_tasks (s : Tasks) : Tasks :=
  { s with tasks := s.stored.getD [] }

/-- `Tasks.__init__`: start from a file state and load it. -/
def Tasks.init (file : Option (List Task)) : Tasks :=
  Tasks.load_tasks { tasks := [], stored := file }

/-- `Tasks.add`: append the task and persist. -/
def Tasks.add (s : Tasks) (t : Task) : Tasks :=
  Tasks.pickle_tasks { s with tasks := s.tasks ++ [t] }

/-- `Tasks.delete`: remove every task with the given id and persist
(hard delete: `self.tasks = [t for t in self.tasks if t.unique_id != unique_id]`). -/
def Tasks.delete (s : Tasks) (unique_id : Nat) : Tasks :=
  Tasks.pickle_tasks { s with tasks := s.tasks.filter (fun t => t.unique_id ≠ unique_id) }

/-- The key date of `Tasks.list`: `t.due_date if t.due_date else datetime.min`
(`datetime` objects are always truthy, so this is `due_date`-or-minimum). -/
def Task.dueOrMin (t : Task) : Nat := t.due_date.getD 0

/-- Lexicographic `<=` of Python on the tuples `(dueOrMin, -priority)`. -/
def listKeyLE (a b : Task) : Prop :=
  a.dueOrMin < b.dueOrMin ∨ (a.dueOrMin = b.dueOrMin ∧ -a.priority ≤ -b.priority)

instance : DecidableRel listKeyLE := fun a b => by unfold listKeyLE; infer_instance

/-- The ordering of `sorted(..., key=lambda t: (due-or-min, -priority), reverse=True)`:
the reversed key order. -/
def listRel (a b : Task) : Prop := listKeyLE b a

instance : DecidableRel listRel := fun a b => by unfold listRel; infer_instance

/-- The filter of `Tasks.list`: `task.completed is None and not task.deleted`. -/
def isActive (t : Task) : Bool := t.completed.isNone && !t.deleted

/-- `Tasks.list`: active tasks, sorted by `(due-or-min, -priority)` in
decreasing order (`reverse=True`). -/
def Tasks.list (s : Tasks) : List Task :=
  List.insertionSort listRel (s.tasks.filter isActive)

/-- Python substring test `needle in hay` on `List Char`. -/
def containsSub (needle : List Char) : List Char → Bool
  | [] => needle.isEmpty
  | c :: rest => needle.isPrefixOf (c :: rest) || containsSub needle rest

/-- `any(keyword.lower() in t.name.lower() for keyword in keywords)`. -/
def matchesAny (keywords : List (List Char)) (t : Task) : Bool :=
  keywords.any (fun k => containsSub (k.map Char.toLower) (t.name.map Char.toLower))

/-- `Tasks.query`: incomplete tasks (deleted or not) whose name contains any
keyword, case-insensitively, in store order. -/
def Tasks.query (s : Tasks) (keywords : List (List Char)) : List Task :=
  (s.tasks.filter (fun t => t.completed.isNone)).filter (matchesAny keywords)

/-- The loop of `Tasks.done`: mark the first task with the given id as
completed; `none` when no task matches. -/
def doneAux (unique_id now : Nat) : List Task → Option (List Task)
  | [] => none
  | t :: ts =>
    if t.unique_id = unique_id then some (t.mark_completed now :: ts)
    else (doneAux unique_id now ts).map (t :: ·)

/-- `Tasks.done`: mark the first task with the id completed and persist,
returning `true`; return `false` (no mutation, no persist) when absent. -/
def Tasks.done (s : Tasks) (unique_id now : Nat) : Tasks × Bool :=
  match doneAux unique_id now s.tasks with
  | some l => (Tasks.pickle_tasks { s with tasks := l }, true)
  | none => (s, false)

/-- `<` of the key dates of `Tasks.report` (`t.due_date or datetime.max`):
`none` stands for `datetime.max`, strictly above every parseable date. -/
def ltDueMax : Option Nat → Option Nat → Prop
  | some a, some b => a < b
  | some _, none => True
  | none, _ => False

instance : DecidableRel ltDueMax := fun a b => by
  unfold ltDueMax; cases a <;> cases b <;> infer_instance

/-- Lexicographic `<=` of Python on the tuples `(due-or-max, -priority)`. -/
def reportRel (a b : Task) : Prop :=
  ltDueMax a.due_date b.due_date ∨ (a.due_date = b.due_date ∧ -a.priority ≤ -b.priority)

instance : DecidableRel reportRel := fun a b => by unfold reportRel; infer_instance

/-- `Tasks.report`: all tasks sorted ascending by `(due-or-max, -priority)`. -/
def Tasks.report (s : Tasks) : List Task :=
  List.insertionSort reportRel s.tasks

/-- `Tasks.get_task_by_id`: first task with the id, if any. -/
def Tasks.get_task_by_id (s : Tasks) (unique_id : Nat) : Option Task :=
  s.tasks.find? (fun t => t.unique_id == unique_id)

/-! ## Total-preorder instances for the two sort relations -/

instance : IsTotal Task listRel := by
  constructor
  intro a b
  unfold listRel listKeyLE
  omega

instance : IsTrans Task listRel := by
  constructor
  intro a b c hab hbc
  unfold listRel listKeyLE at *
  omega

instance : IsTotal Task reportRel := by
  constructor
  intro a b
  unfold reportRel ltDueMax
  cases a.due_date <;> cases b.due_date <;> simp <;> omega

instance : IsTrans Task reportRel := by
  constructor
  intro a b c hab hbc
  unfold reportRel at *
  cases hda : a.due_date <;> cases hdb : b.due_date <;> cases hdc : c.due_date <;>
    simp [hda, hdb, hdc, ltDueMax] at * <;> omega

/-! ## The CLI layer (`handle_command`) -/

/-- Python `str.isdigit()`: nonempty and all digits. -/
def isDigits (s : List Char) : Bool := !s.isEmpty && s.all Char.isDigit

/-- Decimal value of a digit string. -/
def digitsToNat (s : List Char) : Nat :=
  s.foldl (fun acc c => acc * 10 + (c.toNat - 48)) 0

/-- Split a string at every `/` (the separators of `%m/%d/%Y`). -/
def splitSlash : List Char → List (List Char)
  | [] => [[]]
  | c :: rest =>
    if c = '/' then [] :: splitSlash rest
    else
      match splitSlash rest with
      | [] => [[c]]
      | p :: ps => (c :: p) :: ps

/-- Gregorian leap year, as validated by `datetime`. -/
def isLeap (y : Nat) : Bool := (y % 4 == 0 && y % 100 != 0) || y % 400 == 0

/-- Days in a month, as validated by `datetime`. -/
def daysInMonth (y m : Nat) : Nat :=
  if m = 2 then (if isLeap y then 29 else 28)
  else if m = 4 ∨ m = 6 ∨ m = 9 ∨ m = 11 then 30
  else 31

/-- Order-preserving encoding of a calendar date; `01/01/0001` (= `datetime.min`)
encodes to `0`. -/
def encodeDate (y m d : Nat) : Nat := (y - 1) * 10000 + (m - 1) * 100 + (d - 1)

/-- The `%m` field regex of CPython strptime, `1[0-2]|0[1-9]|[1-9]`: one or
two digits with value `1..12` (digits modelled as ASCII). -/
def matchMonth (s : List Char) : Option Nat :=
  if isDigits s && s.length ≤ 2 then
    let m := digitsToNat s
    if 1 ≤ m && m ≤ 12 then some m else none
  else none

/-- The `%d` field regex of CPython strptime,
`3[01]|[12]\d|0[1-9]|[1-9]| [1-9]`: one or two digits with value `1..31`, or
a space-padded single digit `1..9`. -/
def matchDay (s : List Char) : Option Nat :=
  if isDigits s && s.length ≤ 2 then
    let d := digitsToNat s
    if 1 ≤ d && d ≤ 31 then some d else none
  else
    match s with
    | [' ', c] => if '1' ≤ c && c ≤ '9' then some (c.toNat - 48) else none
    | _ => none

/-- The `%Y` field regex of CPython strptime, `\d\d\d\d`: exactly four
digits. -/
def matchYear (s : List Char) : Option Nat :=
  if isDigits s && s.length = 4 then some (digitsToNat s) else none

/-- `datetime.strptime(s, "%m/%d/%Y")`, returning `none` on `ValueError`.
The compiled pattern is the three field regexes joined by literal slashes,
matched against the whole string (strptime rejects unconverted trailing
data): since no field regex can contain a slash, that is exactly a split at
every `/` into three fields, each matching its regex.  The `datetime`
constructor then validates year `>= 1` (four digits bound it by `9999`) and
the day against the month's length. -/
def parseDate (s : List Char) : Option Nat :=
  match splitSlash s with
  | [ms, ds, ys] =>
    match matchMonth ms, matchDay ds, matchYear ys with
    | some m, some d, some y =>
      if 1 ≤ y && d ≤ daysInMonth y m then some (encodeDate y m d) else none
    | _, _, _ => none
  | _ => none

/-- Python `args.priority or 1` (falsy `None` and `0` become `1`). -/
def pyOrOne : Option Int → Int
  | none => 1
  | some v => if v = 0 then 1 else v

/-- The `--add` branch of `handle_command`: validate the name, try to parse
the due date (a failure only prints a warning), create the task with
`unique_id = len(tasks) + 1` and append it.  Returns the new store, the
created task (if any) and whether the invalid-due-date warning was printed. -/
def handleAdd (s : Tasks) (name : List Char) (priority : Option Int)
    (due : Option (List Char)) (now : Nat) : Tasks × Option Task × Bool :=
  if name.isEmpty || isDigits name then (s, none, false)
  else
    let pw : Option Nat × Bool :=
      match due with
      | none => (none, false)
      | some d =>
        if d.isEmpty then (none, false)
        else
          match parseDate d with
          | some v => (some v, false)
          | none => (none, true)
    let unique_id := s.tasks.length + 1
    let t := Task.init unique_id name (pyOrOne priority) pw.1 now
    (s.add t, some t, pw.2)

/-- The loop behind the `--delete` branch: `get_task_by_id` returns a
reference to the first task with the id, whose `deleted` flag is then set. -/
def markDeletedAux (unique_id : Nat) : List Task → Option (List Task)
  | [] => none
  | t :: ts =>
    if t.unique_id = unique_id then some (t.mark_deleted :: ts)
    else (markDeletedAux unique_id ts).map (t :: ·)

/-- The `--delete` branch of `handle_command`: soft-delete the first task with
the id and persist; report not-found (`false`) otherwise. -/
def handleDelete (s : Tasks) (unique_id : Nat) : Tasks × Bool :=
  match markDeletedAux unique_id s.tasks with
  | some l => (Tasks.pickle_tasks { s with tasks := l }, true)
  | none => (s, false)

/-- The `--report` branch of `handle_command`: the task sequence it passes to
`print_tasks` is `tasks_manager.tasks` itself. -/
def handleReportTasks (s : Tasks) : List Task := s.tasks

/-! ## Operation sequences (for the lifetime-uniqueness claim) -/

/-- One CLI-level operation on the store. -/
inductive Op where
  | addOp (name : List Char) (priority : Option Int) (due : Option (List Char)) (now : Nat)
  | deleteOp (unique_id : Nat)
  | doneOp (unique_id now : Nat)
  | markDeletedOp (unique_id : Nat)
  deriving DecidableEq

/-- Whether the operation is the hard `Tasks.delete`. -/
def Op.isDeleteOp : Op → Bool
  | .deleteOp _ => true
  | _ => false

/-- A store together with the ids of all tasks ever created in it. -/
structure Trace where
  store : Tasks
  createdIds : List Nat
  deriving DecidableEq

/-- Apply one operation to a trace, recording the id of any created task. -/
def stepOp (tr : Trace) : Op → Trace
  | .addOp name priority due now =>
    match handleAdd tr.store name priority due now with
    | (s, some t, _) => ⟨s, tr.createdIds ++ [t.unique_id]⟩
    | (s, none, _) => ⟨s, tr.createdIds⟩
  | .deleteOp uid => ⟨tr.store.delete uid, tr.createdIds⟩
  | .doneOp uid now => ⟨(tr.store.done uid now).1, tr.createdIds⟩
  | .markDeletedOp uid => ⟨(handleDelete tr.store uid).1, tr.createdIds⟩

/-- Run a sequence of operations from the empty store (no backing file). -/
def runOps (ops : List Op) : Trace :=
  ops.foldl stepOp ⟨Tasks.init none, []⟩

/-! ## Helper lemmas -/

theorem mem_list_isActive {s : Tasks} {t : Task} (h : t ∈ Tasks.list s) :
    isActive t = true := by
  unfold Tasks.list at h
  rw [List.mem_insertionSort] at h
  exact (List.mem_filter.mp h).2

theorem mem_list_completed {s : Tasks} {t : Task} (h : t ∈ Tasks.list s) :
    t.completed = none ∧ t.deleted = false := by
  have ha := mem_list_isActive h
  unfold isActive at ha
  simp only [Bool.and_eq_true, Bool.not_eq_true', Option.isNone_iff_eq_none] at ha
  exact ha

theorem ltDueMax_irrefl (x : Option Nat) : ¬ ltDueMax x x := by
  cases x <;> simp [ltDueMax]

/-! ## C1: order of ListActive -/

def cexC1A : Task :=
  { created := 0, completed := none, deleted := false, name := ['a'],
    unique_id := 1, priority := 3, due_date := some 10 }

def cexC1B : Task :=
  { created := 0, completed := none, deleted := false, name := ['b'],
    unique_id := 2, priority := 1, due_date := some 10 }

def cexC1 : Tasks := { tasks := [cexC1A, cexC1B], stored := some [cexC1A, cexC1B] }

/-- **C1, counterexample.**  Both tasks are active with the same due date, task
`A` has the higher priority (3 vs 1), yet `Tasks.list` returns the
lower-priority task `B` first: within equal due dates the higher-priority task
does NOT come first (the claim fails on this store). -/
theorem C1_counterexample :
    cexC1A.due_date = cexC1B.due_date ∧ cexC1B.priority < cexC1A.priority ∧
    isActive cexC1A = true ∧ isActive cexC1B = true ∧
    Tasks.list cexC1 = [cexC1B, cexC1A] := by decide

/-- **C1, amended.**  `Tasks.list` returns exactly the tasks with `completed`
unset and `deleted` false, ordered by the combined descending sort on the key
`(due_date-or-epoch-minimum, -priority)`: tasks with later due dates come
first, tasks with no due date sort at the epoch-minimum date, and within equal
key dates the LOWER-priority task comes first. -/
theorem C1_listActive_order (s : Tasks) :
    (Tasks.list s).Perm (s.tasks.filter isActive) ∧
    List.Sorted listRel (Tasks.list s) ∧
    (Tasks.list s).Pairwise
      (fun a b => b.dueOrMin ≤ a.dueOrMin ∧
        (a.dueOrMin = b.dueOrMin → a.priority ≤ b.priority)) := by
  refine ⟨List.perm_insertionSort _ _, List.sorted_insertionSort _ _, ?_⟩
  have h : List.Sorted listRel (Tasks.list s) := List.sorted_insertionSort _ _
  refine List.Pairwise.imp ?_ h
  intro a b hab
  unfold listRel listKeyLE at hab
  constructor
  · omega
  · intro he
    omega

/-- **C1, witness.**  The amended order statement at a concrete store. -/
theorem C1_witness :
    (Tasks.list cexC1).Perm (cexC1.tasks.filter isActive) ∧
    List.Sorted listRel (Tasks.list cexC1) :=
  ⟨(C1_listActive_order cexC1).1, (C1_listActive_order cexC1).2.1⟩

/-! ## C2: ListActive vs Query filtering -/

/-- **C2.**  `Tasks.list` excludes every task with `completed` set or `deleted`
true, while `Tasks.query` filters only on completion and keyword match, in the
store's insertion order (it is the store list filtered in place): a deleted
but incomplete task whose name matches a keyword is returned by `query`. -/
theorem C2_query_asymmetry (s : Tasks) (keywords : List (List Char)) :
    (∀ t ∈ Tasks.list s, t.completed = none ∧ t.deleted = false) ∧
    Tasks.query s keywords
      = s.tasks.filter (fun t => t.completed.isNone && matchesAny keywords t) ∧
    ∀ t ∈ s.tasks, t.completed = none → matchesAny keywords t = true →
      t ∈ Tasks.query s keywords := by
  refine ⟨fun t ht => mem_list_completed ht, ?_, ?_⟩
  · unfold Tasks.query
    rw [List.filter_filter]
    simp only [Bool.and_comm]
  · intro t ht hc hm
    unfold Tasks.query
    exact List.mem_filter.mpr ⟨List.mem_filter.mpr ⟨ht, by simp [hc]⟩, hm⟩

def w2deleted : Task :=
  { created := 0, completed := none, deleted := true, name := ['m','i','l','k'],
    unique_id := 1, priority := 1, due_date := none }

def w2s : Tasks := { tasks := [w2deleted], stored := some [w2deleted] }

/-- **C2, witness.**  A deleted but incomplete task matching the keyword
`"milk"` is returned by `query` (while `list` would exclude it). -/
theorem C2_witness : w2deleted ∈ Tasks.query w2s [['m','i','l','k']] :=
  (C2_query_asymmetry w2s [['m','i','l','k']]).2.2 w2deleted (by decide) (by decide)
    (by decide)

/-! ## C7: Save/Load round-trip -/

/-- **C7.**  `pickle_tasks` followed by `load_tasks` reproduces the same task
list: the same tasks with the same field values in the same order. -/
theorem C7_roundtrip (s : Tasks) :
    (Tasks.load_tasks (Tasks.pickle_tasks s)).tasks = s.tasks := rfl

/-! ## C8: order of Report -/

/-- **C8.**  `Tasks.report` returns all tasks (completed and deleted included),
sorted ascending by `(due_date-or-max, -priority)`: tasks without a due date
come last and among equal due dates the higher-priority task comes first. -/
theorem C8_report_order (s : Tasks) :
    (Tasks.report s).Perm s.tasks ∧
    List.Sorted reportRel (Tasks.report s) ∧
    (Tasks.report s).Pairwise
      (fun a b => (a.due_date = none → b.due_date = none) ∧
        (a.due_date = b.due_date → b.priority ≤ a.priority)) := by
  refine ⟨List.perm_insertionSort _ _, List.sorted_insertionSort _ _, ?_⟩
  have h : List.Sorted reportRel (Tasks.report s) := List.sorted_insertionSort _ _
  refine List.Pairwise.imp ?_ h
  intro a b hab
  unfold reportRel at hab
  constructor
  · intro ha
    rcases hab with h1 | h2
    · rw [ha] at h1
      exact absurd h1 (by simp [ltDueMax])
    · rw [← h2.1]
      exact ha
  · intro he
    rcases hab with h1 | h2
    · rw [he] at h1
      exact absurd h1 (ltDueMax_irrefl _)
    · omega

/-- **C8, witness.**  The report order statement at a concrete store. -/
theorem C8_witness :
    (Tasks.report cexC1).Perm cexC1.tasks ∧
    List.Sorted reportRel (Tasks.report cexC1) :=
  ⟨(C8_report_order cexC1).1, (C8_report_order cexC1).2.1⟩

/-! ## C10: the report CLI path bypasses the sorted Report -/

def cexC10A : Task :=
  { created := 0, completed := none, deleted := false, name := ['x'],
    unique_id := 1, priority := 1, due_date := some 20 }

def cexC10B : Task :=
  { created := 0, completed := none, deleted := false, name := ['y'],
    unique_id := 2, priority := 1, due_date := some 10 }

def cexC10 : Tasks := { tasks := [cexC10A, cexC10B], stored := some [cexC10A, cexC10B] }

/-- **C10.**  The `--report` branch passes the raw store list to printing
(`tasks = tasks_manager.tasks`), so the displayed sequence is the store's
insertion order; on a store whose insertion order is not the report key order
it differs from the sorted `Tasks.report`. -/
theorem C10_report_cli_raw :
    (∀ s : Tasks, handleReportTasks s = s.tasks) ∧
    handleReportTasks cexC10 ≠ Tasks.report cexC10 :=
  ⟨fun _ => rfl, by decide⟩

/-! ## C4: assigned ids -/

theorem handleAdd_cases (s : Tasks) (name : List Char) (priority : Option Int)
    (due : Option (List Char)) (now : Nat) :
    ((name.isEmpty || isDigits name) = true ∧
      handleAdd s name priority due now = (s, none, false)) ∨
    ((name.isEmpty || isDigits name) = false ∧
      ∃ t w, handleAdd s name priority due now = (Tasks.add s t, some t, w) ∧
        t.unique_id = s.tasks.length + 1) := by
  by_cases h : (name.isEmpty || isDigits name) = true
  · left
    exact ⟨h, by unfold handleAdd; rw [if_pos h]⟩
  · right
    refine ⟨by simpa using h, ?_⟩
    unfold handleAdd
    rw [if_neg h]
    exact ⟨_, _, rfl, rfl⟩

/-- **C4.**  Whenever the add command creates a task, its id is the number of
tasks in the store immediately before the add, plus one. -/
theorem C4_assigned_id (s : Tasks) (name : List Char) (priority : Option Int)
    (due : Option (List Char)) (now : Nat) (t : Task)
    (h : (handleAdd s name priority due now).2.1 = some t) :
    t.unique_id = s.tasks.length + 1 := by
  rcases handleAdd_cases s name priority due now with ⟨_, he⟩ | ⟨_, t', w, he, hid⟩
  · rw [he] at h
    simp at h
  · rw [he] at h
    simp only [Option.some.injEq] at h
    rw [← h]
    exact hid

def w4t0 : Task := Task.init 1 ['a'] 1 none 0

def w4s : Tasks := { tasks := [w4t0], stored := some [w4t0] }

def w4t : Task := Task.init 2 ['b'] 1 none 5

/-- **C4, witness.**  Adding to a one-task store assigns id `1 + 1 = 2`. -/
theorem C4_witness :
    (handleAdd w4s ['b'] none none 5).2.1 = some w4t ∧
    w4t.unique_id = w4s.tasks.length + 1 :=
  ⟨by decide, C4_assigned_id w4s ['b'] none none 5 w4t (by decide)⟩

/-! ## C5: delete of an unknown id -/

/-- **C5.**  Deleting an id held by no task leaves the task list unchanged
(same count, same tasks) and still persists the unchanged list; the operation
is total (no error, no not-found signal: `Tasks.delete` returns no such flag). -/
theorem C5_delete_unknown (s : Tasks) (unique_id : Nat)
    (h : ∀ t ∈ s.tasks, t.unique_id ≠ unique_id) :
    (Tasks.delete s unique_id).tasks = s.tasks ∧
    (Tasks.delete s unique_id).stored = some s.tasks := by
  have hf : s.tasks.filter (fun t => t.unique_id ≠ unique_id) = s.tasks := by
    rw [List.filter_eq_self]
    simpa using h
  unfold Tasks.delete Tasks.pickle_tasks
  rw [hf]
  exact ⟨rfl, rfl⟩

def w5t : Task := Task.init 1 ['a'] 1 none 0

def w5s : Tasks := { tasks := [w5t], stored := some [w5t] }

/-- **C5, witness.**  Deleting id `99` from a store holding only id `1`. -/
theorem C5_witness :
    (Tasks.delete w5s 99).tasks = w5s.tasks ∧
    (Tasks.delete w5s 99).stored = some w5s.tasks :=
  C5_delete_unknown w5s 99 (by decide)

/-! ## C9: invalid due-date strings degrade gracefully -/

/-- **C9.**  On an add with a valid (nonempty, not-all-digit) name and a
nonempty due-date string that fails to parse, the task is still created and
appended to the store, with no due date, and the warning is reported. -/
theorem C9_bad_due_date (s : Tasks) (name : List Char) (priority : Option Int)
    (d : List Char) (now : Nat)
    (hname : (name.isEmpty || isDigits name) = false)
    (hd : d.isEmpty = false) (hparse : parseDate d = none) :
    ∃ t, (handleAdd s name priority (some d) now).2.1 = some t ∧
      t.due_date = none ∧
      (handleAdd s name priority (some d) now).1.tasks = s.tasks ++ [t] ∧
      (handleAdd s name priority (some d) now).2.2 = true := by
  refine ⟨Task.init (s.tasks.length + 1) name (pyOrOne priority) none now, ?_, rfl, ?_, ?_⟩ <;>
    simp [handleAdd, hname, hd, hparse, Tasks.add, Tasks.pickle_tasks]

def w9d : List Char := ['1','3','/','4','5','/','2','0','2','5']

/-- **C9, witness.**  Adding `"buy"` with the due string `"13/45/2025"`
(month 13, day 45: not a date) prints the warning and still creates the task. -/
theorem C9_witness :
    (handleAdd (Tasks.init none) ['b','u','y'] none (some w9d) 3).2.2 = true := by
  obtain ⟨t, h1, h2, h3, h4⟩ :=
    C9_bad_due_date (Tasks.init none) ['b','u','y'] none w9d 3 (by decide) (by decide)
      (by decide)
  exact h4

/-! ## C6: MarkCompleted semantics -/

theorem doneAux_none_iff (uid now : Nat) (l : List Task) :
    doneAux uid now l = none ↔ ∀ t ∈ l, t.unique_id ≠ uid := by
  induction l with
  | nil => simp [doneAux]
  | cons t ts ih =>
    by_cases h : t.unique_id = uid
    · simp [doneAux, h]
    · simp [doneAux, h, Option.map_eq_none', ih]

theorem doneAux_length (uid now : Nat) (l : List Task) :
    ∀ m, doneAux uid now l = some m → m.length = l.length := by
  induction l with
  | nil => intro m h; simp [doneAux] at h
  | cons t ts ih =>
    intro m h
    by_cases ht : t.unique_id = uid
    · rw [doneAux, if_pos ht] at h
      cases h
      simp
    · rw [doneAux, if_neg ht] at h
      rcases Option.map_eq_some'.mp h with ⟨m', hm', rfl⟩
      simp [ih m' hm']

theorem doneAux_some_spec (uid now : Nat) (l : List Task) :
    ∀ m, doneAux uid now l = some m →
      ∃ i, ∃ hi : i < l.length,
        (l.get ⟨i, hi⟩).unique_id = uid ∧
        m = l.set i ((l.get ⟨i, hi⟩).mark_completed now) := by
  induction l with
  | nil => intro m h; simp [doneAux] at h
  | cons t ts ih =>
    intro m h
    by_cases ht : t.unique_id = uid
    · rw [doneAux, if_pos ht] at h
      cases h
      exact ⟨0, by simp, by simpa using ht, by simp⟩
    · rw [doneAux, if_neg ht] at h
      rcases Option.map_eq_some'.mp h with ⟨m', hm', rfl⟩
      obtain ⟨i, hi, hget, hset⟩ := ih m' hm'
      refine ⟨i + 1, by simpa using Nat.succ_lt_succ hi, by simpa using hget, ?_⟩
      simp [hset]

/-- **C6.**  `Tasks.done` returns `true` iff some task holds the id; on
`false` nothing (not even the file) is modified; on `true` the first task with
the id has its `completed` set to the current time, the store is persisted,
and the marked task is excluded from any subsequent `Tasks.list`. -/
theorem C6_done_spec (s : Tasks) (uid now : Nat) :
    ((Tasks.done s uid now).2 = true ↔ ∃ t ∈ s.tasks, t.unique_id = uid) ∧
    ((Tasks.done s uid now).2 = false → (Tasks.done s uid now).1 = s) ∧
    ((Tasks.done s uid now).2 = true →
      ∃ i, ∃ hi : i < s.tasks.length,
        (s.tasks.get ⟨i, hi⟩).unique_id = uid ∧
        (Tasks.done s uid now).1.tasks
          = s.tasks.set i ((s.tasks.get ⟨i, hi⟩).mark_completed now) ∧
        (Tasks.done s uid now).1.stored = some ((Tasks.done s uid now).1.tasks) ∧
        (s.tasks.get ⟨i, hi⟩).mark_completed now ∉ Tasks.list (Tasks.done s uid now).1) := by
  cases hd : doneAux uid now s.tasks with
  | none =>
    have hno : ∀ t ∈ s.tasks, t.unique_id ≠ uid := (doneAux_none_iff uid now s.tasks).mp hd
    refine ⟨?_, ?_, ?_⟩
    · rw [Tasks.done, hd]
      simp only [Bool.false_eq_true, false_iff, not_exists]
      intro t
      rintro ⟨ht, rfl⟩
      exact hno t ht rfl
    · intro _
      rw [Tasks.done, hd]
    · intro habs
      rw [Tasks.done, hd] at habs
      simp at habs
  | some l =>
    obtain ⟨i, hi, hget, hset⟩ := doneAux_some_spec uid now s.tasks l hd
    refine ⟨?_, ?_, ?_⟩
    · rw [Tasks.done, hd]
      simp only [true_iff]
      exact ⟨s.tasks.get ⟨i, hi⟩, List.get_mem _ _ _, hget⟩
    · intro habs
      rw [Tasks.done, hd] at habs
      simp at habs
    · intro _
      refine ⟨i, hi, hget, ?_, ?_, ?_⟩
      · rw [Tasks.done, hd, ← hset]
        rfl
      · rw [Tasks.done, hd]
        rfl
      · intro hmem
        have hc := (mem_list_completed hmem).1
        simp [Task.mark_completed] at hc

def w6t : Task := Task.init 1 ['a'] 1 none 0

def w6s : Tasks := { tasks := [w6t], stored := some [w6t] }

/-- **C6, witness.**  Marking id `1` done in a store that holds id `1`
returns `true`. -/
theorem C6_witness : (Tasks.done w6s 1 7).2 = true :=
  (C6_done_spec w6s 1 7).1.mpr ⟨w6t, by decide, by decide⟩

/-! ## C3: lifetime uniqueness of ids -/

theorem markDeletedAux_length (uid : Nat) (l : List Task) :
    ∀ m, markDeletedAux uid l = some m → m.length = l.length := by
  induction l with
  | nil => intro m h; simp [markDeletedAux] at h
  | cons t ts ih =>
    intro m h
    by_cases ht : t.unique_id = uid
    · rw [markDeletedAux, if_pos ht] at h
      cases h
      simp
    · rw [markDeletedAux, if_neg ht] at h
      rcases Option.map_eq_some'.mp h with ⟨m', hm', rfl⟩
      simp [ih m' hm']

/-- The invariant behind the amended claim: the recorded ids are distinct and
all bounded by the store size. -/
def IdsOk (tr : Trace) : Prop :=
  tr.createdIds.Nodup ∧ ∀ i ∈ tr.createdIds, i ≤ tr.store.tasks.length

theorem stepOp_IdsOk (tr : Trace) (op : Op) (hop : op.isDeleteOp = false)
    (h : IdsOk tr) : IdsOk (stepOp tr op) := by
  obtain ⟨hnd, hb⟩ := h
  cases op with
  | addOp name priority due now =>
    rcases handleAdd_cases tr.store name priority due now with ⟨hv, he⟩ | ⟨hv, t, w, he, hid⟩
    · simp only [stepOp, he]
      exact ⟨hnd, hb⟩
    · simp only [stepOp, he]
      constructor
      · rw [List.nodup_append]
        refine ⟨hnd, List.nodup_singleton _, ?_⟩
        intro i hi hi'
        simp only [List.mem_singleton] at hi'
        have := hb i hi
        omega
      · intro i hi
        have hlen : (Tasks.add tr.store t).tasks.length = tr.store.tasks.length + 1 := by
          simp [Tasks.add, Tasks.pickle_tasks]
        rw [hlen]
        rcases List.mem_append.mp hi with hi | hi
        · have := hb i hi
          omega
        · simp only [List.mem_singleton] at hi
          omega
  | deleteOp uid => simp [Op.isDeleteOp] at hop
  | doneOp uid now =>
    cases hd : doneAux uid now tr.store.tasks with
    | none =>
      simp only [stepOp, Tasks.done, hd]
      exact ⟨hnd, hb⟩
    | some l =>
      have hlen := doneAux_length uid now tr.store.tasks l hd
      simp only [stepOp, Tasks.done, hd, Tasks.pickle_tasks]
      exact ⟨hnd, by simpa [hlen] using hb⟩
  | markDeletedOp uid =>
    cases hd : markDeletedAux uid tr.store.tasks with
    | none =>
      simp only [stepOp, handleDelete, hd]
      exact ⟨hnd, hb⟩
    | some l =>
      have hlen := markDeletedAux_length uid tr.store.tasks l hd
      simp only [stepOp, handleDelete, hd, Tasks.pickle_tasks]
      exact ⟨hnd, by simpa [hlen] using hb⟩

theorem foldl_IdsOk (ops : List Op) :
    ∀ tr : Trace, (∀ op ∈ ops, op.isDeleteOp = false) → IdsOk tr →
      IdsOk (ops.foldl stepOp tr) := by
  induction ops with
  | nil => intro tr _ h; simpa using h
  | cons op ops ih =>
    intro tr hall h
    rw [List.foldl_cons]
    exact ih _ (fun o ho => hall o (List.mem_cons_of_mem _ ho))
      (stepOp_IdsOk tr op (hall op (List.mem_cons_self _ _)) h)

def cexOps : List Op :=
  [.addOp ['a'] none none 0, .addOp ['b'] none none 0, .deleteOp 1,
    .addOp ['c'] none none 1]

/-- **C3, counterexample.**  After add, add, hard-delete of id 1 and another
add, the ids ever created are `[1, 2, 2]`: the id `2` is assigned twice, so
ids are NOT pairwise distinct across the store's lifetime. -/
theorem C3_counterexample :
    (runOps cexOps).createdIds = [1, 2, 2] ∧
    ¬ (runOps cexOps).createdIds.Nodup := by decide

/-- **C3, amended.**  For every sequence of Add, MarkCompleted and MarkDeleted
operations from the empty store — no hard Delete — the ids of all tasks ever
created are pairwise distinct; a hard Delete shrinks the store and lets the
count-based id be reassigned. -/
theorem C3_ids_nodup_without_delete (ops : List Op)
    (h : ops.all (fun op => !op.isDeleteOp) = true) :
    (runOps ops).createdIds.Nodup := by
  have hall : ∀ op ∈ ops, op.isDeleteOp = false := by
    intro op hop
    have := List.all_eq_true.mp h op hop
    simpa using this
  have : IdsOk (runOps ops) := by
    unfold runOps
    exact foldl_IdsOk ops _ hall ⟨List.nodup_nil, by simp⟩
  exact this.1

def w3ops : List Op :=
  [.addOp ['a'] none none 0, .doneOp 1 1, .markDeletedOp 1,
    .addOp ['b'] none none 2]

/-- **C3, witness.**  A delete-free sequence of adds, a completion and a
soft-delete yields distinct ids. -/
theorem C3_witness :
    w3ops.all (fun op => !op.isDeleteOp) = true ∧
    (runOps w3ops).createdIds.Nodup :=
  ⟨by decide, C3_ids_nodup_without_delete w3ops (by decide)⟩

end TaskM
